import Mathlib

/-!
Shallow embedding of the texttract-mint core: the Textract extraction
orchestrator (`processDocument` and its helpers), the MongoDB-backed
metadata store (`updatePDFMetadata`, `searchMetadata`), the search route
handler (`GET`) and the process route handler (`POST`).  Each definition
is translated from the corresponding TypeScript source; external
collaborators (MongoDB query operators, the Textract remote service,
the HTTP request body) are modelled explicitly as parameters or small
executable models, documented at each definition.
-/

namespace Mint

/-! ## Character / string helpers (JS string primitives used by the source) -/

/-- Per-character lowercasing of a string's characters.  Models JS
`String.prototype.toLowerCase()` on the character sequences exercised here. -/
def lowerChars (s : String) : List Char :=
  s.data.map Char.toLower

/-- One step of JS `String.prototype.indexOf`: `firstIndexOf hay needle`
returns the least index at which `needle` occurs in `hay`, or `none`
(JS `-1`) when there is no occurrence. -/
def firstIndexOf : List Char → List Char → Option Nat
  | hay, needle =>
    if needle.isPrefixOf hay then some 0
    else
      match hay with
      | [] => none
      | _ :: t => (firstIndexOf t needle).map (· + 1)

/-- `occursAt hay needle i` : `needle` occurs in `hay` starting at index `i`. -/
def occursAt (hay needle : List Char) (i : Nat) : Bool :=
  needle.isPrefixOf (hay.drop i)

/-- Specification-side "first case-insensitive occurrence": the least index
at which `needle` occurs in `hay`, expressed by filtering the candidate
indices in increasing order. -/
def firstOccurrence (hay needle : List Char) : Option Nat :=
  ((List.range (hay.length + 1)).filter (occursAt hay needle)).head?

/-- Case-insensitive literal-substring test: does `q` occur, ignoring case,
as a contiguous substring of `t`?  (This is the spec's wording of the
fallback matching semantics, and also models JS
`a.toLowerCase().includes(b.toLowerCase())`.) -/
def substrCaseInsensitive (q t : String) : Bool :=
  (firstIndexOf (lowerChars t) (lowerChars q)).isSome

/-- JS `String.prototype.substring(start, stop)` (with `start ≤ stop`),
as character slicing. -/
def jsSubstring (s : String) (start stop : Nat) : String :=
  String.mk ((s.data.drop start).take (stop - start))

/-- Characters of a string after JS `String.prototype.trim()`:
leading and trailing whitespace removed. -/
def jsTrimChars (l : List Char) : List Char :=
  ((l.dropWhile Char.isWhitespace).reverse.dropWhile Char.isWhitespace).reverse

/-- Models JS `String.prototype.trim()`. -/
def jsTrim (s : String) : String :=
  String.mk (jsTrimChars s.data)

/-! ## Data model (`PDFMetadata`, src/src/lib/database/mongodb.ts lines 111-126) -/

/-- The `status` field of a metadata record:
`"processing" | "completed" | "failed"`. -/
inductive Status
  | processing
  | completed
  | failed
deriving DecidableEq, Repr

/-- One `pdf_metadata` document.  `uploadedAt` is modelled as a natural
number of milliseconds since the epoch: the source stores an ISO-8601
string whose `Date.getTime()` value this models (ISO strings compare
like their timestamps). -/
structure PDFMetadata where
  id : String
  filename : String
  extractedText : String
  uploadedAt : Nat
  textractJobId : Option String := none
  status : Status
deriving DecidableEq, Repr

/-! ## Textract blocks and text assembly (src/unnamed/part_004) -/

/-- A Textract `Block`: only the fields the source reads
(`BlockType`, `Text`; `Text` is optional in the AWS SDK). -/
structure Block where
  blockType : String
  text : Option String := none
deriving DecidableEq, Repr

/-- Translation of `extractTextFromBlocks` (part_004 lines 119-126):
filter to `BlockType === "LINE"`, map `block.Text || ""`, join with
`"\n"`. -/
def extractTextFromBlocks (blocks : List Block) : String :=
  String.intercalate "\n"
    ((blocks.filter (fun b => b.blockType == "LINE")).map (fun b => b.text.getD ""))

/-! ## The poll loop of `processDocument` (part_004 lines 134-203)

The remote Textract service is modelled as a trace: `trace i` is the
response to the `i`-th `GetDocumentTextDetection` status poll.  `pages`
lists the block pages fetched by the inner `while (nextToken)` pagination
loop after that poll (the source appends each page's `Blocks`; an absent
`Blocks` field behaves as an empty page).  Waiting is modelled by
advancing `elapsed` by the slept interval; intervals are exact rationals
(all values taken by `backoffMs` are small dyadic rationals, on which JS
float arithmetic is exact).  The loop is driven by fuel, with a
distinguished `fuelOut` result; the theorems supply enough fuel. -/

/-- One raw remote poll response: `JobStatus` (possibly absent), the
first page of `Blocks` (possibly absent), and the continuation pages
followed through `NextToken`. -/
structure RawPollResponse where
  jobStatus : Option String := none
  blocks : Option (List Block) := none
  pages : List (List Block) := []

/-- Translation of `getTextExtractionStatus` (part_004 lines 89-112):
`status: response.JobStatus || "UNKNOWN"`, plus the response blocks. -/
def getTextExtractionStatus (r : RawPollResponse) : String × Option (List Block) :=
  (r.jobStatus.getD "UNKNOWN", r.blocks)

/-- `timeoutMs = 5 * 60 * 1000` (part_004 line 146). -/
def timeoutMs : ℚ := 5 * 60 * 1000

/-- `maxBackoffMs = 30000` (part_004 line 145). -/
def maxBackoffMs : ℚ := 30000

/-- Terminal failures of `processDocument`: submission failure, the
5-minute timeout, remote `FAILED` status, and the fuel-exhaustion
artifact of the embedding (never reached with sufficient fuel). -/
inductive ProcError
  | submitFailed
  | timeout
  | jobFailed
  | fuelOut
deriving DecidableEq, Repr

/-- The effective status string read at poll `j`:
`(trace j).JobStatus || "UNKNOWN"`. -/
def statusAt (trace : Nat → RawPollResponse) (j : Nat) : String :=
  ((trace j).jobStatus).getD "UNKNOWN"

/-- All blocks accumulated from poll `j`: the poll's own `Blocks`
followed by every continuation page, in order. -/
def blocksAt (trace : Nat → RawPollResponse) (j : Nat) : List Block :=
  ((trace j).blocks).getD [] ++ ((trace j).pages).flatten

/-- Translation of the `while (status === "IN_PROGRESS")` loop of
`processDocument` (part_004 lines 149-188).  Arguments: remaining fuel,
next poll index, wall-clock elapsed since submission, current
`backoffMs`, accumulated `allBlocks`, and (reversed) list of the sleep
intervals performed so far.  Returns the loop outcome (terminal blocks
and status, or an error) together with the list of sleep intervals, in
order. -/
def pollLoop (trace : Nat → RawPollResponse) :
    Nat → Nat → ℚ → ℚ → List Block → List ℚ →
    Except ProcError (List Block × String) × List ℚ
  | 0, _, _, _, _, ws => (.error .fuelOut, ws.reverse)
  | fuel + 1, i, elapsed, backoff, acc, ws =>
    if timeoutMs < elapsed then
      (.error .timeout, ws.reverse)
    else
      let st := (getTextExtractionStatus (trace i)).1
      let acc2 := (acc ++ ((getTextExtractionStatus (trace i)).2).getD []) ++ ((trace i).pages).flatten
      if st = "IN_PROGRESS" then
        pollLoop trace fuel (i + 1) (elapsed + backoff)
          (min (backoff * (3 / 2)) maxBackoffMs) acc2 (backoff :: ws)
      else
        (.ok (acc2, st), (backoff :: ws).reverse)

/-- Translation of `processDocument` (part_004 lines 134-203): submit the
job (`startTextExtraction`, modelled by its outcome `submit`), run the
poll loop starting from `backoffMs = 2000`, throw on `"FAILED"`, and
otherwise return `extractTextFromBlocks` of all accumulated blocks. -/
def processDocument (submit : Except String Unit)
    (trace : Nat → RawPollResponse) (fuel : Nat) : Except ProcError String :=
  match submit with
  | .error _ => .error .submitFailed
  | .ok _ =>
    match (pollLoop trace fuel 0 0 2000 [] []).1 with
    | .error e => .error e
    | .ok (blocks, st) =>
      if st = "FAILED" then .error .jobFailed
      else .ok (extractTextFromBlocks blocks)

/-- The deterministic backoff sequence: interval slept before poll `n`.
`backoffSeq 0 = 2000`; afterwards
`backoffMs = Math.min(backoffMs * 1.5, 30000)` (part_004 line 171). -/
def backoffSeq : Nat → ℚ
  | 0 => 2000
  | n + 1 => min (backoffSeq n * (3 / 2)) maxBackoffMs

/-- Total time slept by `m` further polls when the current `backoffMs`
is `b`. -/
def waitsFrom (b : ℚ) : Nat → ℚ
  | 0 => 0
  | m + 1 => b + waitsFrom (min (b * (3 / 2)) maxBackoffMs) m

/-- Blocks accumulated by the loop through its terminal poll `k`. -/
def accumBlocks (trace : Nat → RawPollResponse) (k : Nat) : List Block :=
  ((List.range (k + 1)).map (fun j => blocksAt trace j)).flatten

/-! ## Metadata store operations (src/src/lib/database/mongodb.ts)

The MongoDB collection is modelled as a `List PDFMetadata` (document
order); MongoDB query operators are modelled where used.  `searchMetadata`
takes the server's `$text` matching behaviour as a parameter `tm` (it is
an indexed, tokenised, stemmed match internal to MongoDB), together with
a flag recording whether the `$text` query throws (the source catches
that and proceeds with an empty result list). -/

/-- Translation of the `$set` write performed by `updatePDFMetadata`
(mongodb.ts lines 252-258): every supplied field overwrites the stored
one, every absent field is kept, and `id` was removed from the update
document before the `$set` by the destructuring on line 252. -/
structure UpdateFields where
  id : Option String := none
  filename : Option String := none
  extractedText : Option String := none
  uploadedAt : Option Nat := none
  textractJobId : Option String := none
  status : Option Status := none

/-- Effect of `$set updateFields` on one document, with `id` stripped. -/
def applyUpdates (u : UpdateFields) (r : PDFMetadata) : PDFMetadata :=
  { id := r.id
    filename := u.filename.getD r.filename
    extractedText := u.extractedText.getD r.extractedText
    uploadedAt := u.uploadedAt.getD r.uploadedAt
    textractJobId := match u.textractJobId with
      | none => r.textractJobId
      | some v => some v
    status := u.status.getD r.status }

/-- Translation of `updatePDFMetadata` (mongodb.ts lines 244-277):
`findOneAndUpdate({ id }, { $set: updateFields }, { returnDocument:
"after" })` updates the first document whose `id` field matches and
returns it; with no match it returns `null` (modelled `none`).  The
result is the returned document together with the updated collection. -/
def updatePDFMetadata (i : String) (u : UpdateFields) :
    List PDFMetadata → Option PDFMetadata × List PDFMetadata
  | [] => (none, [])
  | r :: rest =>
    if r.id = i then (some (applyUpdates u r), applyUpdates u r :: rest)
    else
      let out := updatePDFMetadata i u rest
      (out.1, r :: out.2)

/-- The PCRE metacharacters of the engine behind `$regex`: a pattern
containing none of these is matched purely literally. -/
def isRegexMetachar (c : Char) : Bool :=
  c = '.' || c = '+' || c = '*' || c = '?' || c = '(' || c = ')' ||
  c = '[' || c = ']' || c = '\x7b' || c = '\x7d' || c = '^' || c = '$' ||
  c = '|' || c = '\\'

/-- Partial model of the PCRE engine behind `$regex` with option `"i"`,
faithful on the pattern fragment the concrete theorems instantiate it
at: a literal character matches itself up to case, and `.` matches any
character.  Patterns containing any other metacharacter (`isRegexMetachar`)
are outside this model's faithful domain, so every general theorem takes
the engine as an explicit parameter instead of fixing this model.
`matchesHere pat txt` : the pattern matches a prefix of `txt`. -/
def matchesHere : List Char → List Char → Bool
  | [], _ => true
  | _ :: _, [] => false
  | p :: ps, c :: cs => (p = '.' || p.toLower = c.toLower) && matchesHere ps cs

/-- Unanchored regex search: the pattern matches starting at some index. -/
def regexSearch : List Char → List Char → Bool
  | pat, [] => matchesHere pat []
  | pat, c :: cs => matchesHere pat (c :: cs) || regexSearch pat cs

/-- `{ extractedText: { $regex: query, $options: "i" } }` applied to one
text value, under the partial engine model `matchesHere`/`regexSearch`:
the query, interpreted as a case-insensitive regular expression, matches
somewhere inside the text.  Used only on patterns made of literal
characters and `.`, where it agrees with PCRE. -/
def mongoRegexMatchI (query text : String) : Bool :=
  regexSearch query.data text.data

/-- Helper for `mongoTextMatch`: splits lowercased characters into
maximal alphanumeric runs. -/
def tokenizeGo : List Char → List Char → List (List Char)
  | [], acc => if acc.isEmpty then [] else [acc.reverse]
  | c :: cs, acc =>
    if c.isAlphanum then tokenizeGo cs (c :: acc)
    else if acc.isEmpty then tokenizeGo cs acc
    else acc.reverse :: tokenizeGo cs []

/-- The search terms of a string under the text index. -/
def mongoTextTokens (s : String) : List (List Char) :=
  tokenizeGo (lowerChars s) []

/-- Models MongoDB `$text: { $search: query }` against the `extractedText`
text index: case-insensitive, token-based — some term of the query occurs
as a whole token of the text.  (The real server also stems terms; the
theorems that quantify over the text-match behaviour take it as an
arbitrary function, and this concrete model is used only to exhibit
runs.) -/
def mongoTextMatch (query text : String) : Bool :=
  (mongoTextTokens query).any (fun tq => (mongoTextTokens text).contains tq)

/-- The primary query of `searchMetadata` (mongodb.ts lines 290-295):
`$and: [{ status: "completed" }, { $text: { $search: query } }]`, with
the `$text` behaviour `tm` supplied by the server. -/
def primaryResults (tm : String → String → Bool)
    (store : List PDFMetadata) (q : String) : List PDFMetadata :=
  store.filter (fun r => r.status == Status.completed && tm q r.extractedText)

/-- The fallback query of `searchMetadata` (mongodb.ts lines 303-309):
`$and: [{ status: "completed" }, { extractedText: { $regex: query,
$options: "i" } }]`, with the `$regex` matching behaviour `rm` supplied
by the server's PCRE engine. -/
def fallbackResults (rm : String → String → Bool)
    (store : List PDFMetadata) (q : String) : List PDFMetadata :=
  store.filter (fun r => r.status == Status.completed && rm q r.extractedText)

/-- Translation of `searchMetadata` (mongodb.ts lines 282-325): run the
`$text` query first (`textIndexFails` records the caught
`textSearchError` case, which leaves `documents = []`); if that produced
zero documents, run the `$regex` fallback with engine behaviour `rm`. -/
def searchMetadata (tm rm : String → String → Bool) (textIndexFails : Bool)
    (store : List PDFMetadata) (q : String) : List PDFMetadata :=
  let documents := if textIndexFails then [] else primaryResults tm store q
  if documents.isEmpty then fallbackResults rm store q else documents

/-! ## Search route (src/src/app/api/search/route.ts) -/

/-- One formatted search result (src/src/types/index.ts). -/
structure SearchResult where
  id : String
  filename : String
  uploadedAt : Nat
  matchPreview : String
  extractedText : String
deriving DecidableEq, Repr

/-- Translation of the per-record preview computation (route.ts lines
22-35): find the first case-insensitive occurrence of the query in the
record text; around it take `Math.max(0, matchIndex - 50)` (natural
subtraction truncates at 0) to `Math.min(text.length, matchIndex +
query.length + 50)`; with no occurrence the preview is `""`. -/
def matchPreview (query text : String) : String :=
  match firstIndexOf (lowerChars text) (lowerChars query) with
  | none => ""
  | some matchIndex =>
    jsSubstring text (matchIndex - 50)
      (min text.length (matchIndex + query.length + 50))

/-- Modelled from the spec (section 4.3), for comparison with the code's
`matchPreview`: locate the first case-insensitive occurrence of the query
inside `extractedText` (`firstOccurrence`, the least occurrence index);
take from `max(0, firstIndex - 50)` to `min(length, firstIndex +
queryLength + 50)`, clamped to text bounds; with no occurrence the
preview is empty. -/
def matchPreviewSpec (query text : String) : String :=
  match firstOccurrence (lowerChars text) (lowerChars query) with
  | none => ""
  | some firstIndex =>
    let start : Nat := (max 0 ((firstIndex : Int) - 50)).toNat
    let stop : Nat := min text.length (firstIndex + query.length + 50)
    String.mk ((text.data.drop start).take (stop - start))

/-- Formatting of store results (route.ts lines 21-44). -/
def formatResults (query : String) (results : List PDFMetadata) : List SearchResult :=
  results.map (fun r =>
    { id := r.id
      filename := r.filename
      uploadedAt := r.uploadedAt
      matchPreview := matchPreview query r.extractedText
      extractedText := r.extractedText })

/-- The comparator passed to `formattedResults.sort` (route.ts lines
47-57): previews containing the query case-insensitively first, then
`uploadedAt` descending. -/
def searchComparator (query : String) (a b : SearchResult) : Int :=
  let aExact := substrCaseInsensitive query a.matchPreview
  let bExact := substrCaseInsensitive query b.matchPreview
  if aExact && !bExact then -1
  else if !aExact && bExact then 1
  else (b.uploadedAt : Int) - (a.uploadedAt : Int)

/-- Insert into a sorted list, keeping elements the comparator places
before-or-equal in front. -/
def insertCmp (cmp : SearchResult → SearchResult → Int) (a : SearchResult) :
    List SearchResult → List SearchResult
  | [] => [a]
  | b :: bs => if cmp a b ≤ 0 then a :: b :: bs else b :: insertCmp cmp a bs

/-- Models JS `Array.prototype.sort(cmp)` (a stable comparison sort). -/
def jsSort (cmp : SearchResult → SearchResult → Int) :
    List SearchResult → List SearchResult
  | [] => []
  | a :: as' => insertCmp cmp a (jsSort cmp as')

/-- The search route's response: a 400 validation rejection, or a 200
with the formatted, sorted results. -/
inductive SearchResponse
  | validationError
  | ok (results : List SearchResult)
deriving DecidableEq, Repr

/-- Translation of the search route `GET` (route.ts lines 5-63).  `q` is
`request.nextUrl.searchParams.get("q")` (`none` when absent); the guard
is `!query || query.trim().length < 2` (a `null` or empty query is falsy;
`""` also has trimmed length `0 < 2`), rejected before `searchMetadata`
is invoked.  `tm` and `rm` are the store's `$text` and `$regex`
behaviours, forwarded to `searchMetadata`. -/
def GET (q : Option String) (tm rm : String → String → Bool)
    (textIndexFails : Bool) (store : List PDFMetadata) : SearchResponse :=
  match q with
  | none => .validationError
  | some query =>
    if (jsTrim query).length < 2 then .validationError
    else
      .ok (jsSort (searchComparator query)
        (formatResults query (searchMetadata tm rm textIndexFails store query)))

/-! ## Process route (src/unnamed/part_001, `POST` lines 6-72)

The HTTP request body is modelled as `Option (Option String × Option
String)`: `none` when `request.json()` rejects (malformed body), else the
`id` and `s3Key` fields.  A fetch request body is a one-shot stream:
`request.json()` consumes it, and a second call rejects with a body-
unusable `TypeError`; `requestJson` models this via the `consumed` flag.
The collaborator outcomes (Textract, S3 delete, metadata updates) are
supplied in `HandlerEnv`; the handler's observable effects are the list
of status writes it successfully performs on the metadata store. -/

/-- Failures of `request.json()`. -/
inductive JsonErr
  | bodyUnusable
  | parseFailed
deriving DecidableEq, Repr

/-- Models `await request.json()` on a one-shot body stream. -/
def requestJson (body : Option (Option String × Option String))
    (consumed : Bool) : Except JsonErr (Option String × Option String) :=
  if consumed then .error .bodyUnusable
  else
    match body with
    | none => .error .parseFailed
    | some b => .ok b

/-- JS truthiness of a possibly-absent string (`!id` is true for a
missing field and for `""`). -/
def truthy : Option String → Bool
  | none => false
  | some s => !s.isEmpty

/-- Outcomes of the collaborator calls made by the process route. -/
structure HandlerEnv where
  processResult : Except String String
  deleteResult : Except String Unit
  updateCompletedResult : Except String Unit
  updateFailedResult : Except String Unit
  deleteAfterErrorResult : Except String Unit

/-- The wire-visible outcome of the process route: a 400, a 200, the 500
built in the catch block, or an exception escaping the handler. -/
inductive PostResult
  | badRequest
  | ok (id : String) (textLen : Nat)
  | serverError (msg : String)
  | unhandled (e : JsonErr)
deriving DecidableEq, Repr

/-- Translation of the catch block (part_001 lines 43-70): re-read the
request body; if an `id` was supplied, update the record to `failed`
(an update failure is logged via `.catch` and swallowed); best-effort
delete from S3; respond 500 with the caught error's message.  `updates`
carries the status writes already performed in the try block. -/
def postCatch (body : Option (Option String × Option String))
    (env : HandlerEnv) (origMsg : String) (consumed : Bool)
    (updates : List (String × Status)) : PostResult × List (String × Status) :=
  match requestJson body consumed with
  | .error e => (.unhandled e, updates)
  | .ok (idOpt, _) =>
    let updates2 :=
      if truthy idOpt then
        match env.updateFailedResult with
        | .ok _ => updates ++ [(idOpt.getD "", Status.failed)]
        | .error _ => updates
      else updates
    (.serverError origMsg, updates2)

/-- Message of a body-read failure (its exact text is irrelevant to the
handler's behaviour). -/
def jsonErrMsg : JsonErr → String
  | .bodyUnusable => "Body is unusable"
  | .parseFailed => "Unexpected end of JSON input"

/-- Translation of the process route `POST` (part_001 lines 6-72): parse
the body; 400 unless `id` and `s3Key` are truthy; run `processDocument`;
best-effort S3 delete; update the metadata to `completed`; 200.  Any
throw lands in `postCatch` with the body already consumed. -/
def POST (body : Option (Option String × Option String)) (env : HandlerEnv) :
    PostResult × List (String × Status) :=
  match requestJson body false with
  | .error e =>
    -- the parse failure is the caught error; the body stream is consumed
    postCatch body env (jsonErrMsg e) true []
  | .ok (idOpt, keyOpt) =>
    if !(truthy idOpt && truthy keyOpt) then (.badRequest, [])
    else
      match env.processResult with
      | .error msg => postCatch body env msg true []
      | .ok text =>
        -- deleteFromS3 is wrapped in its own try/catch; its outcome is ignored
        match env.updateCompletedResult with
        | .error msg => postCatch body env msg true []
        | .ok _ =>
          (.ok (idOpt.getD "") text.length, [(idOpt.getD "", Status.completed)])

/-! ## Concrete instances used by witnesses and counterexamples -/

/-- A completed record whose text is `"abc"`. -/
def sampleDoc : PDFMetadata :=
  { id := "d1", filename := "f.pdf", extractedText := "abc", uploadedAt := 0,
    status := .completed }

/-- A remote trace that reports `IN_PROGRESS` forever. -/
def inProgressTrace : Nat → RawPollResponse :=
  fun _ => { jobStatus := some "IN_PROGRESS" }

/-- A remote trace whose first response carries no `JobStatus` (hence
effective status `"UNKNOWN"`) and one `LINE` block. -/
def unknownTrace : Nat → RawPollResponse :=
  fun _ => { blocks := some [{ blockType := "LINE", text := some "Hi" }] }

/-- A partial update supplying only `status` and `extractedText`. -/
def updX : UpdateFields :=
  { status := some .completed, extractedText := some "X" }

/-- A processing record. -/
def recA : PDFMetadata :=
  { id := "a1", filename := "a.pdf", extractedText := "", uploadedAt := 5,
    status := .processing }

/-- A second processing record. -/
def recB : PDFMetadata :=
  { id := "b2", filename := "b.pdf", extractedText := "", uploadedAt := 9,
    status := .processing }

/-- Collaborator outcomes in which the extraction step throws. -/
def envBoom : HandlerEnv :=
  { processResult := .error "Failed to process document: timed out"
    deleteResult := .ok ()
    updateCompletedResult := .ok ()
    updateFailedResult := .ok ()
    deleteAfterErrorResult := .ok () }

/-! ## Helper lemmas -/

/-- Any member of a status-filtered query result is `completed`. -/
theorem status_of_mem_completedFilter (f : PDFMetadata → Bool)
    (store : List PDFMetadata) (r : PDFMetadata)
    (h : r ∈ store.filter (fun x => x.status == Status.completed && f x)) :
    r.status = Status.completed := by
  have h2 := (List.mem_filter.mp h).2
  simp only [Bool.and_eq_true, beq_iff_eq] at h2
  exact h2.1

/-- Trimming never lengthens a string. -/
theorem length_jsTrim_le (s : String) : (jsTrim s).length ≤ s.length := by
  have hd : ∀ (l : List Char), (l.dropWhile Char.isWhitespace).length ≤ l.length := by
    intro l
    induction l with
    | nil => simp
    | cons a t ih =>
      by_cases ha : Char.isWhitespace a
      · simpa [List.dropWhile, ha] using Nat.le_succ_of_le ih
      · simp [List.dropWhile, ha]
  show (jsTrimChars s.data).length ≤ s.data.length
  unfold jsTrimChars
  calc (((s.data.dropWhile Char.isWhitespace).reverse.dropWhile Char.isWhitespace).reverse).length
      = ((s.data.dropWhile Char.isWhitespace).reverse.dropWhile Char.isWhitespace).length := by
        simp
    _ ≤ (s.data.dropWhile Char.isWhitespace).reverse.length := hd _
    _ = (s.data.dropWhile Char.isWhitespace).length := by simp
    _ ≤ s.data.length := hd _

/-- `updatePDFMetadata` with no matching `id` returns `none` and leaves
the collection untouched. -/
theorem updatePDFMetadata_not_found (i : String) (u : UpdateFields) :
    ∀ store : List PDFMetadata, (∀ r ∈ store, r.id ≠ i) →
      updatePDFMetadata i u store = (none, store) := by
  intro store
  induction store with
  | nil => intro _; rfl
  | cons r rest ih =>
    intro h
    have hr : ¬ r.id = i := h r (List.mem_cons_self r rest)
    have hrest := ih (fun x hx => h x (List.mem_cons_of_mem r hx))
    simp [updatePDFMetadata, hr, hrest]

/-- `updatePDFMetadata` updates exactly the first record whose `id`
matches, leaving every other record untouched. -/
theorem updatePDFMetadata_found (i : String) (u : UpdateFields) :
    ∀ (pre : List PDFMetadata) (r : PDFMetadata) (post : List PDFMetadata),
      (∀ r' ∈ pre, r'.id ≠ i) → r.id = i →
      updatePDFMetadata i u (pre ++ r :: post) =
        (some (applyUpdates u r), pre ++ applyUpdates u r :: post) := by
  intro pre
  induction pre with
  | nil => intro r post _ hr; simp [updatePDFMetadata, hr]
  | cons a pre' ih =>
    intro r post hpre hr
    have ha : ¬ a.id = i := hpre a (List.mem_cons_self a pre')
    have hrec := ih r post (fun x hx => hpre x (List.mem_cons_of_mem a hx)) hr
    simp [updatePDFMetadata, ha, hrec]

/-- The recursive `indexOf` scan returns exactly the least index at which
the needle occurs (the spec-side characterization `firstOccurrence`). -/
theorem firstIndexOf_eq_firstOccurrence :
    ∀ (hay needle : List Char), firstIndexOf hay needle = firstOccurrence hay needle := by
  intro hay
  induction hay with
  | nil =>
    intro needle
    have hr1 : List.range 1 = [0] := by simp [List.range_succ]
    unfold firstIndexOf firstOccurrence
    by_cases hp : needle.isPrefixOf ([] : List Char)
    · have h0 : occursAt [] needle 0 = true := by simp [occursAt, hp]
      rw [if_pos hp]
      simp [hr1, List.filter, h0]
    · have h0 : occursAt [] needle 0 = false := by simp [occursAt, hp]
      rw [if_neg hp]
      simp [hr1, List.filter, h0]
  | cons c t ih =>
    intro needle
    unfold firstIndexOf firstOccurrence
    by_cases hp : needle.isPrefixOf (c :: t)
    · have h0 : occursAt (c :: t) needle 0 = true := by simp [occursAt, hp]
      rw [if_pos hp]
      rw [show (c :: t).length + 1 = (t.length + 1) + 1 by simp]
      rw [List.range_succ_eq_map, List.filter_cons]
      simp [h0]
    · have h0 : ¬ occursAt (c :: t) needle 0 = true := by simp [occursAt, hp]
      have hcomp : (occursAt (c :: t) needle ∘ Nat.succ) = occursAt t needle := by
        funext i
        simp [occursAt, List.drop_succ_cons]
      rw [if_neg hp]
      show (firstIndexOf t needle).map (· + 1) =
        ((List.range ((c :: t).length + 1)).filter (occursAt (c :: t) needle)).head?
      rw [ih]
      conv_rhs =>
        rw [show (c :: t).length + 1 = (t.length + 1) + 1 by simp]
        rw [List.range_succ_eq_map, List.filter_cons, if_neg h0, List.filter_map,
          hcomp, List.head?_map]
      rfl

/-- On a pattern with no `.` metacharacter, an anchored regex match is
exactly a case-insensitive prefix match. -/
theorem matchesHere_dotless :
    ∀ (pat : List Char), (∀ c ∈ pat, c ≠ '.') → ∀ txt,
      matchesHere pat txt = (pat.map Char.toLower).isPrefixOf (txt.map Char.toLower) := by
  intro pat
  induction pat with
  | nil => intro _ txt; simp [matchesHere, List.isPrefixOf]
  | cons p ps ih =>
    intro hdot txt
    have hp : p ≠ '.' := hdot p (List.mem_cons_self p ps)
    have hps := ih (fun c hc => hdot c (List.mem_cons_of_mem p hc))
    cases txt with
    | nil => simp [matchesHere, List.isPrefixOf]
    | cons c cs =>
      by_cases hc : p.toLower = c.toLower <;>
        simp [matchesHere, List.isPrefixOf, hp, hc, hps cs]

/-- On a pattern with no `.` metacharacter, an unanchored regex search
succeeds exactly when the lowered pattern occurs at some index of the
lowered text. -/
theorem regexSearch_dotless :
    ∀ (txt pat : List Char), (∀ c ∈ pat, c ≠ '.') →
      (regexSearch pat txt = true ↔
        ∃ i, occursAt (txt.map Char.toLower) (pat.map Char.toLower) i = true) := by
  intro txt
  induction txt with
  | nil =>
    intro pat hdot
    rw [show regexSearch pat [] = matchesHere pat [] from rfl, matchesHere_dotless pat hdot]
    constructor
    · intro h; exact ⟨0, by simpa [occursAt] using h⟩
    · intro ⟨i, hi⟩
      simpa [occursAt, List.drop_nil] using hi
  | cons c cs ih =>
    intro pat hdot
    rw [show regexSearch pat (c :: cs) = (matchesHere pat (c :: cs) || regexSearch pat cs) from rfl]
    rw [Bool.or_eq_true, matchesHere_dotless pat hdot, ih pat hdot]
    constructor
    · intro h
      cases h with
      | inl h => exact ⟨0, by simpa [occursAt] using h⟩
      | inr h =>
        obtain ⟨i, hi⟩ := h
        exact ⟨i + 1, by simpa [occursAt, List.drop_succ_cons] using hi⟩
    · intro ⟨i, hi⟩
      cases i with
      | zero => exact Or.inl (by simpa [occursAt] using hi)
      | succ j =>
        exact Or.inr ⟨j, by simpa [occursAt, List.drop_succ_cons] using hi⟩

/-- `firstIndexOf` succeeds exactly when the needle occurs somewhere. -/
theorem firstIndexOf_isSome_iff :
    ∀ (hay needle : List Char),
      (firstIndexOf hay needle).isSome = true ↔ ∃ i, occursAt hay needle i = true := by
  intro hay needle
  rw [firstIndexOf_eq_firstOccurrence]
  unfold firstOccurrence
  constructor
  · intro h
    cases hh : ((List.range (hay.length + 1)).filter (occursAt hay needle)).head? with
    | none => rw [hh] at h; simp at h
    | some i =>
      have hmem : i ∈ (List.range (hay.length + 1)).filter (occursAt hay needle) :=
        List.mem_of_mem_head? (by simp [hh])
      exact ⟨i, (List.mem_filter.mp hmem).2⟩
  · intro ⟨i, hi⟩
    have hj : ∃ j, j ≤ hay.length ∧ occursAt hay needle j = true := by
      by_cases hle : i ≤ hay.length
      · exact ⟨i, hle, hi⟩
      · have hd : hay.drop i = [] := List.drop_eq_nil_of_le (by omega)
        unfold occursAt at hi
        rw [hd] at hi
        cases needle with
        | nil => exact ⟨0, Nat.zero_le _, by simp [occursAt]⟩
        | cons n ns => simp [List.isPrefixOf] at hi
    obtain ⟨j, hjle, hjo⟩ := hj
    have hmem : j ∈ (List.range (hay.length + 1)).filter (occursAt hay needle) :=
      List.mem_filter.mpr ⟨List.mem_range.mpr (Nat.lt_succ_of_le hjle), hjo⟩
    have hne := List.ne_nil_of_mem hmem
    cases hl : (List.range (hay.length + 1)).filter (occursAt hay needle) with
    | nil => exact absurd hl hne
    | cons a l2 => rfl

/-- On queries without regex metacharacters, the `$regex` fallback match
coincides with the case-insensitive literal-substring test. -/
theorem regex_eq_substr_dotless :
    ∀ (q t : String), (∀ c ∈ q.data, c ≠ '.') →
      mongoRegexMatchI q t = substrCaseInsensitive q t := by
  intro q t h
  have h1 := regexSearch_dotless t.data q.data h
  have h2 := firstIndexOf_isSome_iff (lowerChars t) (lowerChars q)
  unfold mongoRegexMatchI substrCaseInsensitive
  cases hb : regexSearch q.data t.data with
  | true =>
    have := h2.mpr (h1.mp hb)
    exact this.symm
  | false =>
    cases hb2 : (firstIndexOf (lowerChars t) (lowerChars q)).isSome with
    | true =>
      have := h1.mpr (h2.mp hb2)
      rw [hb] at this
      exact absurd this (by simp)
    | false => rfl

/-- The backoff sequence stays within `[2000, 30000]`. -/
theorem backoffSeq_bounds : ∀ n, 2000 ≤ backoffSeq n ∧ backoffSeq n ≤ 30000 := by
  intro n
  induction n with
  | zero => constructor <;> norm_num [backoffSeq]
  | succ m ih =>
    obtain ⟨h1, h2⟩ := ih
    constructor
    · simp only [backoffSeq]
      refine le_min ?_ (by norm_num [maxBackoffMs])
      linarith
    · simp only [backoffSeq]
      exact le_trans (min_le_right _ _) (by norm_num [maxBackoffMs])

/-- The backoff sequence is monotonically non-decreasing. -/
theorem backoffSeq_mono : ∀ n, backoffSeq n ≤ backoffSeq (n + 1) := by
  intro n
  obtain ⟨h1, h2⟩ := backoffSeq_bounds n
  simp only [backoffSeq]
  refine le_min (by linarith) h2

/-- Whatever the remote does and however the loop ends, the sleep
intervals it performed are an initial segment of `backoffSeq`. -/
theorem pollLoop_waits :
    ∀ (fuel : Nat) (trace : Nat → RawPollResponse) (i : Nat) (elapsed : ℚ)
      (m : Nat) (acc : List Block),
      ∃ n, (pollLoop trace fuel i elapsed (backoffSeq m) acc
              (((List.range m).map backoffSeq).reverse)).2 =
        (List.range (m + n)).map backoffSeq := by
  intro fuel
  induction fuel with
  | zero =>
    intro trace i elapsed m acc
    exact ⟨0, by simp [pollLoop]⟩
  | succ f ih =>
    intro trace i elapsed m acc
    by_cases ht : timeoutMs < elapsed
    · exact ⟨0, by simp [pollLoop, ht]⟩
    · by_cases hs : (getTextExtractionStatus (trace i)).1 = "IN_PROGRESS"
      · have hws : (backoffSeq m :: ((List.range m).map backoffSeq).reverse) =
            ((List.range (m + 1)).map backoffSeq).reverse := by
          simp [List.range_succ]
        obtain ⟨n, hn⟩ := ih trace (i + 1) (elapsed + backoffSeq m) (m + 1)
          ((acc ++ ((getTextExtractionStatus (trace i)).2).getD []) ++ ((trace i).pages).flatten)
        refine ⟨n + 1, ?_⟩
        simp only [pollLoop, if_neg ht, if_pos hs]
        rw [show min (backoffSeq m * (3 / 2)) maxBackoffMs = backoffSeq (m + 1) from rfl, hws]
        rw [show m + (n + 1) = m + 1 + n by omega]
        exact hn
      · refine ⟨1, ?_⟩
        simp [pollLoop, ht, hs, List.range_succ]

/-- The updated backoff never drops below the base interval. -/
theorem min_backoff_ge (b : ℚ) (hb : 2000 ≤ b) : 2000 ≤ min (b * (3 / 2)) maxBackoffMs :=
  le_min (by linarith) (by norm_num [maxBackoffMs])

/-- With an always-in-progress remote, enough fuel forces the wall-clock
check to fire: each iteration adds at least the 2000 ms base interval. -/
theorem pollLoop_timeout :
    ∀ (fuel : Nat) (trace : Nat → RawPollResponse) (i : Nat) (elapsed backoff : ℚ)
      (acc : List Block) (ws : List ℚ),
      (∀ j, statusAt trace j = "IN_PROGRESS") →
      2000 ≤ backoff →
      1 ≤ fuel →
      timeoutMs < elapsed + 2000 * ((fuel : ℚ) - 1) →
      (pollLoop trace fuel i elapsed backoff acc ws).1 = .error .timeout := by
  intro fuel
  induction fuel with
  | zero => intro _ _ _ _ _ _ _ _ h1 _; omega
  | succ f ih =>
    intro trace i elapsed backoff acc ws hst hb _ hto
    by_cases ht : timeoutMs < elapsed
    · simp [pollLoop, ht]
    · have hs : (getTextExtractionStatus (trace i)).1 = "IN_PROGRESS" := hst i
      cases f with
      | zero =>
        exfalso
        push_cast at hto
        exact ht (by linarith)
      | succ f2 =>
        simp only [pollLoop, if_neg ht, if_pos hs]
        apply ih trace (i + 1) (elapsed + backoff) _ _ _ hst (min_backoff_ge backoff hb) (by omega)
        push_cast at hto ⊢
        linarith

/-- Characterization of a loop run whose first non-`IN_PROGRESS` poll is
poll `k` (no timeout fires along the way): the loop returns all blocks
accumulated through poll `k` together with that poll's status. -/
theorem pollLoop_first_terminal :
    ∀ (k : Nat) (trace : Nat → RawPollResponse) (fuel i : Nat) (elapsed backoff : ℚ)
      (acc : List Block) (ws : List ℚ),
      (∀ j, j < k → statusAt trace (i + j) = "IN_PROGRESS") →
      statusAt trace (i + k) ≠ "IN_PROGRESS" →
      k + 1 ≤ fuel →
      (∀ m, m ≤ k → elapsed + waitsFrom backoff m ≤ timeoutMs) →
      (pollLoop trace fuel i elapsed backoff acc ws).1 =
        .ok (acc ++ ((List.range (k + 1)).map (fun j => blocksAt trace (i + j))).flatten,
             statusAt trace (i + k)) := by
  intro k
  induction k with
  | zero =>
    intro trace fuel i elapsed backoff acc ws hprog hterm hfuel hwait
    cases fuel with
    | zero => omega
    | succ f =>
      have ht : ¬ timeoutMs < elapsed := by
        have hw := hwait 0 (le_refl 0)
        simp [waitsFrom] at hw
        linarith
      have hs : ¬ (getTextExtractionStatus (trace i)).1 = "IN_PROGRESS" := by
        simpa using hterm
      have hr1 : List.range 1 = [0] := by simp [List.range_succ]
      simp only [pollLoop, if_neg ht, if_neg hs]
      simp [hr1, blocksAt, statusAt, getTextExtractionStatus, List.append_assoc]
  | succ k ih =>
    intro trace fuel i elapsed backoff acc ws hprog hterm hfuel hwait
    cases fuel with
    | zero => omega
    | succ f =>
      have ht : ¬ timeoutMs < elapsed := by
        have hw := hwait 0 (Nat.zero_le _)
        simp [waitsFrom] at hw
        linarith
      have hs : (getTextExtractionStatus (trace i)).1 = "IN_PROGRESS" := by
        have h0 := hprog 0 (Nat.succ_pos k)
        simpa using h0
      have hprog2 : ∀ j, j < k → statusAt trace (i + 1 + j) = "IN_PROGRESS" := by
        intro j hj
        have := hprog (j + 1) (by omega)
        rwa [show i + (j + 1) = i + 1 + j by omega] at this
      have hterm2 : statusAt trace (i + 1 + k) ≠ "IN_PROGRESS" := by
        rwa [show i + 1 + k = i + (k + 1) by omega]
      have hwait2 : ∀ m, m ≤ k →
          (elapsed + backoff) + waitsFrom (min (backoff * (3 / 2)) maxBackoffMs) m ≤ timeoutMs := by
        intro m hm
        have := hwait (m + 1) (by omega)
        simp only [waitsFrom] at this
        linarith
      have hrec := ih trace f (i + 1) (elapsed + backoff) (min (backoff * (3 / 2)) maxBackoffMs)
        ((acc ++ ((getTextExtractionStatus (trace i)).2).getD []) ++ ((trace i).pages).flatten)
        (backoff :: ws) hprog2 hterm2 (by omega) hwait2
      simp only [pollLoop, if_neg ht, if_pos hs]
      rw [hrec]
      have hF : ((List.range (k + 2)).map (fun j => blocksAt trace (i + j))).flatten =
          blocksAt trace i ++
            ((List.range (k + 1)).map (fun j => blocksAt trace (i + 1 + j))).flatten := by
        rw [List.range_succ_eq_map, List.map_cons, List.map_map]
        rw [show ((fun j => blocksAt trace (i + j)) ∘ Nat.succ) =
            (fun j => blocksAt trace (i + 1 + j)) from by
          funext j
          simp [Function.comp]
          rw [show i + (j + 1) = i + 1 + j by omega]]
        simp
      rw [show i + 1 + k = i + (k + 1) by omega]
      rw [hF]
      simp [blocksAt, getTextExtractionStatus, List.append_assoc]

/-! ## Claims -/

/-- Claim C6: the assembled final text equals the `Text` values of
exactly the fragments whose `BlockType` is `"LINE"`, in arrival order,
joined with a single newline; all other fragment kinds are discarded;
in particular `["Hello", "World"]` assembles to `"Hello\nWorld"`. -/
theorem texttract_C6 :
    (∀ texts : List String,
      extractTextFromBlocks
          (texts.map (fun t => { blockType := "LINE", text := some t })) =
        String.intercalate "\n" texts) ∧
    (∀ (pre post : List Block) (b : Block), b.blockType ≠ "LINE" →
      extractTextFromBlocks (pre ++ b :: post) =
        extractTextFromBlocks (pre ++ post)) ∧
    extractTextFromBlocks
        [{ blockType := "LINE", text := some "Hello" },
         { blockType := "LINE", text := some "World" }] =
      "Hello" ++ "\n" ++ "World" := by
  refine ⟨?_, ?_, by decide⟩
  · intro texts
    unfold extractTextFromBlocks
    congr 1
    induction texts with
    | nil => rfl
    | cons t ts ih => simpa using ih
  · intro pre post b hb
    unfold extractTextFromBlocks
    simp [List.filter_append, List.filter_cons, hb]

/-- Witness for C6: a non-`LINE` fragment inserted in the middle is
discarded by the assembly. -/
theorem texttract_C6_witness :
    extractTextFromBlocks
        [{ blockType := "LINE", text := some "Hello" },
         { blockType := "TABLE", text := none },
         { blockType := "LINE", text := some "World" }] =
      extractTextFromBlocks
        [{ blockType := "LINE", text := some "Hello" },
         { blockType := "LINE", text := some "World" }] :=
  texttract_C6.2.1 [{ blockType := "LINE", text := some "Hello" }]
    [{ blockType := "LINE", text := some "World" }]
    { blockType := "TABLE", text := none } (by decide)

/-- Claim C3: every record returned by `searchMetadata` has status
`completed`, whatever the query, the store contents, the indexed-match
and regex-match behaviours, or whether the text index failed. -/
theorem texttract_C3 :
    ∀ (tm rm : String → String → Bool) (fails : Bool)
      (store : List PDFMetadata) (q : String) (r : PDFMetadata),
      r ∈ searchMetadata tm rm fails store q → r.status = Status.completed := by
  intro tm rm fails store q r h
  simp only [searchMetadata] at h
  cases fails with
  | true =>
    simp only [if_true, List.isEmpty_nil, if_pos] at h
    exact status_of_mem_completedFilter (fun x => rm q x.extractedText) store r h
  | false =>
    simp only [Bool.false_eq_true, if_false] at h
    by_cases he : (primaryResults tm store q).isEmpty
    · rw [if_pos he] at h
      exact status_of_mem_completedFilter (fun x => rm q x.extractedText) store r h
    · rw [if_neg he] at h
      exact status_of_mem_completedFilter (fun x => tm q x.extractedText) store r h

/-- Witness for C3 at a concrete store and query. -/
theorem texttract_C3_witness : sampleDoc.status = Status.completed :=
  texttract_C3 mongoTextMatch mongoRegexMatchI false [sampleDoc] "ab" sampleDoc (by decide)

/-- Claim C9: a query of length below 2 (or an absent query) is rejected
with a validation error, and the store is never consulted (the response
does not depend on the store). -/
theorem texttract_C9 :
    ∀ (s : String) (tm rm : String → String → Bool) (fails : Bool)
      (store store' : List PDFMetadata),
      s.length < 2 →
      GET (some s) tm rm fails store = SearchResponse.validationError ∧
      GET none tm rm fails store = SearchResponse.validationError ∧
      GET (some s) tm rm fails store = GET (some s) tm rm fails store' := by
  intro s tm rm fails store store' h
  have ht : (jsTrim s).length < 2 := lt_of_le_of_lt (length_jsTrim_le s) h
  refine ⟨?_, rfl, ?_⟩ <;> simp [GET, ht]

/-- Witness for C9: the single-character query `"a"` is rejected. -/
theorem texttract_C9_witness :
    GET (some "a") mongoTextMatch mongoRegexMatchI false [sampleDoc] =
      SearchResponse.validationError :=
  (texttract_C9 "a" mongoTextMatch mongoRegexMatchI false [sampleDoc] [] (by decide)).1

/-- Claim C8: `updatePDFMetadata` merges exactly the supplied fields into
the first record with the given `id` (all other fields and all other
records keep their previous values, and `id` is immutable even when
supplied); with no matching record it reports not-found (`none`) and
modifies nothing. -/
theorem texttract_C8 :
    ∀ (i : String) (u : UpdateFields) (store : List PDFMetadata),
      ((∀ r ∈ store, r.id ≠ i) → updatePDFMetadata i u store = (none, store)) ∧
      (∀ (pre : List PDFMetadata) (r : PDFMetadata) (post : List PDFMetadata),
        store = pre ++ r :: post → (∀ r' ∈ pre, r'.id ≠ i) → r.id = i →
        updatePDFMetadata i u store =
          (some (applyUpdates u r), pre ++ applyUpdates u r :: post)) ∧
      (∀ r : PDFMetadata,
        (applyUpdates u r).id = r.id ∧
        (applyUpdates u r).filename = u.filename.getD r.filename ∧
        (applyUpdates u r).extractedText = u.extractedText.getD r.extractedText ∧
        (applyUpdates u r).uploadedAt = u.uploadedAt.getD r.uploadedAt ∧
        (u.textractJobId = none →
          (applyUpdates u r).textractJobId = r.textractJobId) ∧
        (∀ v, u.textractJobId = some v →
          (applyUpdates u r).textractJobId = some v) ∧
        (applyUpdates u r).status = u.status.getD r.status) := by
  intro i u store
  refine ⟨updatePDFMetadata_not_found i u store, ?_, ?_⟩
  · intro pre r post hs hpre hr
    subst hs
    exact updatePDFMetadata_found i u pre r post hpre hr
  · intro r
    refine ⟨rfl, rfl, rfl, rfl, ?_, ?_, rfl⟩
    · intro h; simp [applyUpdates, h]
    · intro v h; simp [applyUpdates, h]

/-- Witness for C8: updating `status` and `extractedText` of the second
of two records changes exactly those fields of exactly that record. -/
theorem texttract_C8_witness :
    updatePDFMetadata "b2" updX [recA, recB] =
      (some (applyUpdates updX recB), [recA, applyUpdates updX recB]) :=
  (texttract_C8 "b2" updX [recA, recB]).2.1 [recA] recB [] rfl (by decide) rfl

/-- Counterexample to claim C2 as stated: with the store holding one
completed record whose text is `"abc"` and the query `"a.c"`, the
indexed search yields zero results and the fallback returns the record,
yet `"a.c"` does not occur as a literal substring of `"abc"` (ignoring
case) — the fallback interprets the query as a regular expression, in
which `.` matches any character. -/
theorem texttract_C2_counterexample :
    primaryResults mongoTextMatch [sampleDoc] "a.c" = [] ∧
    searchMetadata mongoTextMatch mongoRegexMatchI false [sampleDoc] "a.c" = [sampleDoc] ∧
    substrCaseInsensitive "a.c" sampleDoc.extractedText = false := by
  refine ⟨by decide, by decide, by decide⟩

/-- Claim C2 (amended): `searchMetadata` first performs the indexed
full-text query; if and only if that yields zero results it falls back,
and — whatever matching behaviour the server's regex engine `rm` has —
the fallback returns a completed record exactly when `rm` matches the
query against its `extractedText`; for queries containing no PCRE
metacharacter the engine matches purely literally, and the match
coincides with the case-insensitive literal-substring test. -/
theorem texttract_C2_amended :
    ∀ (tm rm : String → String → Bool) (store : List PDFMetadata) (q : String),
      (primaryResults tm store q ≠ [] →
        searchMetadata tm rm false store q = primaryResults tm store q) ∧
      (primaryResults tm store q = [] →
        ∀ r, r ∈ searchMetadata tm rm false store q ↔
          r ∈ store ∧ r.status = Status.completed ∧
            rm q r.extractedText = true) ∧
      ((∀ c ∈ q.data, isRegexMetachar c = false) →
        ∀ t, mongoRegexMatchI q t = substrCaseInsensitive q t) := by
  intro tm rm store q
  refine ⟨?_, ?_, ?_⟩
  · intro h
    have he : ¬ (primaryResults tm store q).isEmpty = true := by
      simpa [List.isEmpty_iff] using h
    simp [searchMetadata, he]
  · intro h r
    simp [searchMetadata, h, fallbackResults, List.mem_filter, and_assoc]
  · intro hmeta t
    apply regex_eq_substr_dotless
    intro c hc hdot
    have hm := hmeta c hc
    rw [hdot] at hm
    exact absurd hm (by decide)

/-- Witness for the amended C2: a fallback run that returns a record,
and a metacharacter-free query on which regex match and substring match
coincide. -/
theorem texttract_C2_amended_witness :
    (sampleDoc ∈ searchMetadata mongoTextMatch mongoRegexMatchI false [sampleDoc] "ab") ∧
    mongoRegexMatchI "ab" "xAby" = substrCaseInsensitive "ab" "xAby" :=
  ⟨((texttract_C2_amended mongoTextMatch mongoRegexMatchI [sampleDoc] "ab").2.1
        (by decide) sampleDoc).mpr
      ⟨by decide, by decide, by decide⟩,
    (texttract_C2_amended mongoTextMatch mongoRegexMatchI [sampleDoc] "ab").2.2
      (by decide) "xAby"⟩

/-- Claim C7: the computed `matchPreview` is exactly the spec's preview:
the substring around the first case-insensitive occurrence of the query,
from `max(0, firstIndex - 50)` to `min(length, firstIndex + queryLength +
50)`, and the empty string when there is no occurrence. -/
theorem texttract_C7 :
    ∀ (query text : String), matchPreview query text = matchPreviewSpec query text := by
  intro q t
  unfold matchPreview matchPreviewSpec
  rw [firstIndexOf_eq_firstOccurrence]
  cases firstOccurrence (lowerChars t) (lowerChars q) with
  | none => rfl
  | some idx =>
    have hS : (max 0 ((idx : Int) - 50)).toNat = idx - 50 := by omega
    simp only [jsSubstring, hS]

/-- Claim C5: the inter-poll intervals are deterministic and monotonically
non-decreasing: the first is 2000 ms, each subsequent one is the previous
multiplied by 1.5 and capped at 30000 ms, none ever exceeds 30000 ms, and
every run of the poll loop sleeps exactly an initial segment of this
sequence. -/
theorem texttract_C5 :
    backoffSeq 0 = 2000 ∧
    (∀ n, backoffSeq (n + 1) = min (backoffSeq n * (3 / 2)) 30000) ∧
    (∀ n, backoffSeq n ≤ backoffSeq (n + 1)) ∧
    (∀ n, backoffSeq n ≤ 30000) ∧
    (∀ (trace : Nat → RawPollResponse) (fuel : Nat),
      ∃ n, (pollLoop trace fuel 0 0 2000 [] []).2 = (List.range n).map backoffSeq) := by
  refine ⟨rfl, fun n => by simp [backoffSeq, maxBackoffMs], backoffSeq_mono,
    fun n => (backoffSeq_bounds n).2, ?_⟩
  intro trace fuel
  have h := pollLoop_waits fuel trace 0 0 0 []
  simpa using h

/-- Claim C4: when the remote status stays `IN_PROGRESS` past the
5-minute wall-clock ceiling, `processDocument` aborts with the timeout
error, and no accumulated text is returned. -/
theorem texttract_C4 :
    ∀ (trace : Nat → RawPollResponse) (fuel : Nat),
      (∀ j, statusAt trace j = "IN_PROGRESS") → 152 ≤ fuel →
      processDocument (Except.ok ()) trace fuel = Except.error ProcError.timeout ∧
      ∀ text, processDocument (Except.ok ()) trace fuel ≠ Except.ok text := by
  intro trace fuel hst hf
  have hl : (pollLoop trace fuel 0 0 2000 [] []).1 = .error .timeout := by
    apply pollLoop_timeout fuel trace 0 0 2000 [] [] hst (le_refl _) (by omega)
    have hc : (152 : ℚ) ≤ (fuel : ℚ) := by exact_mod_cast hf
    simp only [timeoutMs]
    linarith
  constructor
  · simp [processDocument, hl]
  · intro text
    simp [processDocument, hl]

/-- Witness for C4 on the concrete always-in-progress trace. -/
theorem texttract_C4_witness :
    processDocument (Except.ok ()) inProgressTrace 152 = Except.error ProcError.timeout :=
  (texttract_C4 inProgressTrace 152 (fun _ => rfl) (le_refl 152)).1

/-- Claim C10: the first poll whose status is not `IN_PROGRESS` ends the
loop, and any terminal status other than `FAILED` — including `UNKNOWN`
(an absent remote status) or `PARTIAL_SUCCESS` — is treated as success:
`processDocument` returns the assembled text; only `FAILED` yields the
job-failure error. -/
theorem texttract_C10 :
    ∀ (trace : Nat → RawPollResponse) (fuel k : Nat),
      (∀ j, j < k → statusAt trace j = "IN_PROGRESS") →
      statusAt trace k ≠ "IN_PROGRESS" →
      k + 1 ≤ fuel →
      (∀ m, m ≤ k → waitsFrom 2000 m ≤ timeoutMs) →
      (statusAt trace k ≠ "FAILED" →
        processDocument (Except.ok ()) trace fuel =
          Except.ok (extractTextFromBlocks (accumBlocks trace k))) ∧
      (statusAt trace k = "FAILED" →
        processDocument (Except.ok ()) trace fuel = Except.error ProcError.jobFailed) := by
  intro trace fuel k hprog hterm hfuel hwait
  have hl := pollLoop_first_terminal k trace fuel 0 0 2000 [] []
    (by intro j hj; simpa using hprog j hj)
    (by simpa using hterm)
    hfuel
    (by intro m hm; simpa using hwait m hm)
  simp only [Nat.zero_add, List.nil_append] at hl
  constructor
  · intro hnf
    simp only [processDocument, hl]
    rw [if_neg hnf]
    simp [accumBlocks]
  · intro hf
    simp only [processDocument, hl]
    rw [if_pos hf]

/-- Witness for C10: a first poll with no `JobStatus` (effective status
`UNKNOWN`) ends the loop and returns the assembled text. -/
theorem texttract_C10_witness :
    processDocument (Except.ok ()) unknownTrace 1 = Except.ok "Hi" := by
  have h := (texttract_C10 unknownTrace 1 0
    (fun j hj => absurd hj (Nat.not_lt_zero j))
    (by decide)
    (le_refl 1)
    (by
      intro m hm
      have hm0 : m = 0 := Nat.le_zero.mp hm
      subst hm0
      simp [waitsFrom, timeoutMs])).1 (by decide)
  rw [h]
  rfl

/-- Claim C1 fails on the code: whenever the extraction step throws, the
catch block of the process route re-reads the already-consumed request
body; that second `request.json()` itself throws, so the `failed` status
update is never performed (the update list is empty) and the error
escaping the handler is the body-read failure, not the original
extraction error. -/
theorem texttract_C1_bug :
    ∀ (i k : String) (env : HandlerEnv) (msg : String),
      truthy (some i) = true → truthy (some k) = true →
      env.processResult = Except.error msg →
      POST (some (some i, some k)) env = (PostResult.unhandled JsonErr.bodyUnusable, []) := by
  intro i k env msg hi hk hp
  simp [POST, requestJson, hi, hk, hp, postCatch]

/-- Witness for the C1 divergence at a concrete request and environment. -/
theorem texttract_C1_bug_witness :
    POST (some (some "doc-1", some "temp-pdfs/a.pdf")) envBoom =
      (PostResult.unhandled JsonErr.bodyUnusable, []) :=
  texttract_C1_bug "doc-1" "temp-pdfs/a.pdf" envBoom "Failed to process document: timed out"
    (by decide) (by decide) rfl

end Mint
